import Mathlib

/-!
Verification of the discovery–normalize–filter pipeline of the
poly-ops-console repository.

The development shallowly embeds the Python sources:
  * `src/data/events_node.py` — `MarketNode`, `EventNode`, `EventNode.from_json`
    with its helpers `to_float` and `safe_json_load`;
  * `src/backend_functions/discovery.py` — `search_events` (enrichment step),
    `get_current_events` (pagination loop), `is_match` (fuzzy matching via
    `difflib.SequenceMatcher`), and `filter_events`.

JSON values are modelled by the inductive `JsonV`; Python dictionaries coming
from parsed JSON are association lists `Dict`.  Python floats are modelled by
`Rat` (no float rounding affects any verified property).  Code that can raise
an uncaught Python exception is modelled in the `Except String` monad; code
that catches all of its exceptions is a plain total function.  Network calls
are modelled by oracle parameters giving each request's response.
-/

namespace PolyOps

/-- Model of a parsed JSON value (the result of `response.json()` /
`json.loads`): JSON null maps to Python `None`, numbers to `Rat`. -/
inductive JsonV where
  | null
  | bool (b : Bool)
  | num (q : Rat)
  | str (s : String)
  | arr (elems : List JsonV)
  | obj (fields : List (String × JsonV))
  deriving Inhabited

/-- A Python dict produced by JSON parsing: an association list. -/
abbrev Dict := List (String × JsonV)

/-- Model of `d.get(k)` on a Python dict: `none` when the key is absent. -/
def dget (d : Dict) (k : String) : Option JsonV :=
  (d.find? (fun p => p.1 == k)).map (fun p => p.2)

/-- Model of `d.get(k, default)` on a Python dict. -/
def dgetD (d : Dict) (k : String) (dflt : JsonV) : JsonV :=
  (dget d k).getD dflt

/-- Python truthiness of a value obtained from `dict.get` (where `none`
models both an absent key and JSON null mapped to Python `None`). -/
def truthy : Option JsonV → Bool
  | none => false
  | some .null => false
  | some (.bool b) => b
  | some (.num q) => q != 0
  | some (.str s) => s != ""
  | some (.arr l) => !l.isEmpty
  | some (.obj l) => !l.isEmpty

/-- Model of the Python expression `x or y` (returns `x` if truthy, else `y`). -/
def pyOr (x y : Option JsonV) : Option JsonV :=
  if truthy x then x else y

/-- Is the value a JSON object (a Python dict)? -/
def JsonV.isObj : JsonV → Bool
  | .obj _ => true
  | _ => false

/-! ### Model of `json.loads`

A recursive-descent parser for the JSON grammar (strict mode, as used by
`json.loads` on `str` input; the CPython extensions `NaN`/`Infinity` are not
representable in `Rat` and are left out).  Parsing failure is `none`, which
models `json.JSONDecodeError`. -/

/-- JSON insignificant whitespace. -/
def jIsWs (c : Char) : Bool :=
  c == ' ' || c == '\t' || c == '\n' || c == '\r'

/-- Skip JSON whitespace. -/
def jws (cs : List Char) : List Char :=
  cs.dropWhile jIsWs

/-- Decimal digit value. -/
def digitVal? (c : Char) : Option Nat :=
  if c.isDigit then some (c.toNat - 48) else none

/-- Hexadecimal digit value. -/
def hexVal? (c : Char) : Option Nat :=
  if c.isDigit then some (c.toNat - 48)
  else if 'a' ≤ c && c ≤ 'f' then some (c.toNat - 87)
  else if 'A' ≤ c && c ≤ 'F' then some (c.toNat - 70)
  else none

/-- Take a maximal run of decimal digits, returning them and the rest. -/
def takeDigits (cs : List Char) : List Char × List Char :=
  (cs.takeWhile Char.isDigit, cs.dropWhile Char.isDigit)

/-- Value of a digit run. -/
def digitsToNat (ds : List Char) : Nat :=
  ds.foldl (fun acc c => 10 * acc + (c.toNat - 48)) 0

/-- Parse the body of a JSON string (after the opening quote), handling the
escape sequences of the JSON grammar; rejects raw control characters. -/
def jstring : Nat → List Char → Option (List Char × List Char)
  | 0, _ => none
  | _, [] => none
  | fuel + 1, c :: cs =>
    if c == Char.ofNat 34 then some ([], cs)
    else if c == '\\' then
      match cs with
      | [] => none
      | e :: cs' =>
        if e == Char.ofNat 34 then (jstring fuel cs').map (fun p => (Char.ofNat 34 :: p.1, p.2))
        else if e == '\\' then (jstring fuel cs').map (fun p => ('\\' :: p.1, p.2))
        else if e == '/' then (jstring fuel cs').map (fun p => ('/' :: p.1, p.2))
        else if e == 'b' then (jstring fuel cs').map (fun p => (Char.ofNat 8 :: p.1, p.2))
        else if e == 'f' then (jstring fuel cs').map (fun p => (Char.ofNat 12 :: p.1, p.2))
        else if e == 'n' then (jstring fuel cs').map (fun p => ('\n' :: p.1, p.2))
        else if e == 'r' then (jstring fuel cs').map (fun p => (Char.ofNat 13 :: p.1, p.2))
        else if e == 't' then (jstring fuel cs').map (fun p => ('\t' :: p.1, p.2))
        else if e == 'u' then
          match cs' with
          | h1 :: h2 :: h3 :: h4 :: cs'' => do
            let v1 ← hexVal? h1
            let v2 ← hexVal? h2
            let v3 ← hexVal? h3
            let v4 ← hexVal? h4
            let code := ((v1 * 16 + v2) * 16 + v3) * 16 + v4
            (jstring fuel cs'').map (fun p => (Char.ofNat code :: p.1, p.2))
          | _ => none
        else none
    else if c.toNat < 32 then none
    else (jstring fuel cs).map (fun p => (c :: p.1, p.2))

/-- Parse a JSON number (sign, integer part without leading zeros, optional
fraction, optional exponent) into a `Rat`. -/
def jnumber (cs : List Char) : Option (Rat × List Char) := do
  let (neg, cs₁) := match cs with
    | '-' :: rest => (true, rest)
    | _ => (false, cs)
  let (ints, cs₂) := takeDigits cs₁
  match ints with
  | [] => none
  | d :: ds =>
    -- leading zeros are not allowed by the JSON grammar
    if d == '0' && !ds.isEmpty then none else
    let intPart : Nat := digitsToNat ints
    let (fracDigits, cs₃) := match cs₂ with
      | '.' :: rest =>
        let (fs, r) := takeDigits rest
        (fs, r)
      | _ => ([], cs₂)
    -- a dot must be followed by at least one digit
    if (match cs₂ with | '.' :: _ => fracDigits.isEmpty | _ => false) then none else
    let (expVal, cs₄) : Option Int × List Char := match cs₃ with
      | e :: rest =>
        if e == 'e' || e == 'E' then
          let (esign, rest₁) : Int × List Char := match rest with
            | '+' :: r => (1, r)
            | '-' :: r => (-1, r)
            | _ => (1, rest)
          let (eds, rest₂) := takeDigits rest₁
          if eds.isEmpty then (none, cs₃)
          else (some (esign * (digitsToNat eds : Int)), rest₂)
        else (some 0, cs₃)
      | [] => (some 0, cs₃)
    match expVal with
    | none => none
    | some ex =>
      let base : Rat :=
        (intPart : Rat) + (digitsToNat fracDigits : Rat) / ((10 : Rat) ^ fracDigits.length)
      let scaled : Rat :=
        if ex ≥ 0 then base * (10 : Rat) ^ ex.toNat else base / (10 : Rat) ^ (-ex).toNat
      some ((if neg then -scaled else scaled), cs₄)

mutual

/-- Parse one JSON value. -/
def jvalue : Nat → List Char → Option (JsonV × List Char)
  | 0, _ => none
  | fuel + 1, cs =>
    match jws cs with
    | 'n' :: 'u' :: 'l' :: 'l' :: rest => some (.null, rest)
    | 't' :: 'r' :: 'u' :: 'e' :: rest => some (.bool true, rest)
    | 'f' :: 'a' :: 'l' :: 's' :: 'e' :: rest => some (.bool false, rest)
    | c :: rest =>
      if c == Char.ofNat 34 then
        (jstring (fuel + 1) rest).map (fun p => (.str (String.mk p.1), p.2))
      else if c == '[' then jarray fuel rest
      else if c == Char.ofNat 123 then jobject fuel rest
      else (jnumber (c :: rest)).map (fun p => (.num p.1, p.2))
    | [] => none

/-- Parse the remainder of a JSON array (after `[`). -/
def jarray (fuel : Nat) (cs : List Char) : Option (JsonV × List Char) :=
  match fuel with
  | 0 => none
  | fuel + 1 =>
    match jws cs with
    | ']' :: rest => some (.arr [], rest)
    | _ => do
      let (v, cs₁) ← jvalue fuel cs
      let (vs, cs₂) ← jarrayTail fuel cs₁
      some (.arr (v :: vs), cs₂)

/-- Parse `, value`* `]` closing a JSON array. -/
def jarrayTail (fuel : Nat) (cs : List Char) : Option (List JsonV × List Char) :=
  match fuel with
  | 0 => none
  | fuel + 1 =>
    match jws cs with
    | ']' :: rest => some ([], rest)
    | ',' :: rest => do
      let (v, cs₁) ← jvalue fuel rest
      let (vs, cs₂) ← jarrayTail fuel cs₁
      some (v :: vs, cs₂)
    | _ => none

/-- Parse the remainder of a JSON object (after the opening brace). -/
def jobject (fuel : Nat) (cs : List Char) : Option (JsonV × List Char) :=
  match fuel with
  | 0 => none
  | fuel + 1 =>
    match jws cs with
    | c :: rest =>
      if c == Char.ofNat 125 then some (.obj [], rest)
      else if c == Char.ofNat 34 then do
        let (k, cs₁) ← jstring fuel rest
        let cs₂ ← (match jws cs₁ with
          | ':' :: r => some r
          | _ => none)
        let (v, cs₃) ← jvalue fuel cs₂
        let (kvs, cs₄) ← jobjectTail fuel cs₃
        some (.obj ((String.mk k, v) :: kvs), cs₄)
      else none
    | [] => none

/-- Parse `, "key": value`* and the closing brace of a JSON object. -/
def jobjectTail (fuel : Nat) (cs : List Char) : Option (List (String × JsonV) × List Char) :=
  match fuel with
  | 0 => none
  | fuel + 1 =>
    match jws cs with
    | c :: rest =>
      if c == Char.ofNat 125 then some ([], rest)
      else if c == ',' then
        match jws rest with
        | c' :: rest' =>
          if c' == Char.ofNat 34 then do
            let (k, cs₁) ← jstring fuel rest'
            let cs₂ ← (match jws cs₁ with
              | ':' :: r => some r
              | _ => none)
            let (v, cs₃) ← jvalue fuel cs₂
            let (kvs, cs₄) ← jobjectTail fuel cs₃
            some ((String.mk k, v) :: kvs, cs₄)
          else none
        | [] => none
      else none
    | [] => none

end

/-- Model of `json.loads` on a `str`: parse one JSON document, requiring only
whitespace afterwards; `none` models `json.JSONDecodeError`. -/
def json_loads (s : String) : Option JsonV := do
  let cs := s.toList
  let (v, rest) ← jvalue (cs.length + 1) cs
  if (jws rest).isEmpty then some v else none

/-! ### Python coercion helpers used by `EventNode.from_json` -/

/-- Model of Python `float(s)` on a string: optional surrounding whitespace,
optional sign, decimal digits with an optional dot on either side, optional
exponent.  `none` models `ValueError`. -/
def pyFloatOfString (s : String) : Option Rat := do
  let cs := (s.toList.dropWhile jIsWs).reverse.dropWhile jIsWs |>.reverse
  let (neg, cs₁) := match cs with
    | '-' :: rest => (true, rest)
    | '+' :: rest => (false, rest)
    | _ => (false, cs)
  let (ints, cs₂) := takeDigits cs₁
  let (fracDigits, cs₃) := match cs₂ with
    | '.' :: rest => takeDigits rest
    | _ => ([], cs₂)
  -- at least one digit somewhere in the mantissa
  if ints.isEmpty && fracDigits.isEmpty then none else
  let (expVal, cs₄) : Option Int × List Char := match cs₃ with
    | e :: rest =>
      if e == 'e' || e == 'E' then
        let (esign, rest₁) : Int × List Char := match rest with
          | '+' :: r => (1, r)
          | '-' :: r => (-1, r)
          | _ => (1, rest)
        let (eds, rest₂) := takeDigits rest₁
        if eds.isEmpty then (none, cs₃)
        else (some (esign * (digitsToNat eds : Int)), rest₂)
      else (none, cs₃)
    | [] => (some 0, cs₃)
  match expVal with
  | none => none
  | some ex =>
    if !cs₄.isEmpty then none else
    let base : Rat :=
      (digitsToNat ints : Rat) + (digitsToNat fracDigits : Rat) / ((10 : Rat) ^ fracDigits.length)
    let scaled : Rat :=
      if ex ≥ 0 then base * (10 : Rat) ^ ex.toNat else base / (10 : Rat) ^ (-ex).toNat
    some (if neg then -scaled else scaled)

/-- Render a `Rat` the way Python renders the number it models: integers
(JSON integers become Python `int`) print without a fractional part. -/
def ratRepr (q : Rat) : String :=
  if q.den = 1 then toString q.num else toString q

mutual

/-- Python `repr` of a value of JSON origin (as rendered inside containers:
strings are quoted; for the other shapes `repr` agrees with `str`). -/
def pyRepr : JsonV → String
  | .null => "None"
  | .bool true => "True"
  | .bool false => "False"
  | .num q => ratRepr q
  | .str s => "'" ++ s ++ "'"
  | .arr l => "[" ++ String.intercalate ", " (pyReprList l) ++ "]"
  | .obj l => "\x7b" ++ String.intercalate ", " (pyReprFields l) ++ "\x7d"

/-- `repr` of the elements of a list. -/
def pyReprList : List JsonV → List String
  | [] => []
  | v :: vs => pyRepr v :: pyReprList vs

/-- `repr` of the entries of a dict. -/
def pyReprFields : List (String × JsonV) → List String
  | [] => []
  | kv :: kvs => ("'" ++ kv.1 ++ "': " ++ pyRepr kv.2) :: pyReprFields kvs

end

/-- Model of Python `str(x)` for a value of JSON origin (`str(None) = "None"`;
a top-level string is returned unquoted, containers render as their `repr`). -/
def pyStr : Option JsonV → String
  | none => "None"
  | some .null => "None"
  | some (.bool true) => "True"
  | some (.bool false) => "False"
  | some (.num q) => ratRepr q
  | some (.str s) => s
  | some (.arr l) => pyRepr (.arr l)
  | some (.obj l) => pyRepr (.obj l)

/-- `to_float` from `EventNode.from_json`:
`float(val) if val is not None else 0.0`, with `ValueError`/`TypeError`
mapped to `0.0`. -/
def to_float (val : Option JsonV) : Rat :=
  match val with
  | none => 0
  | some .null => 0
  | some (.num q) => q
  | some (.bool b) => if b then 1 else 0
  | some (.str s) => (pyFloatOfString s).getD 0
  | some (.arr _) => 0
  | some (.obj _) => 0

/-- `safe_json_load` from `EventNode.from_json`: a list is returned as-is; a
string is passed to `json.loads`, with `json.JSONDecodeError` mapped to the
empty list; anything else yields the empty list.  Note that a successful
parse is returned unchanged even when it is not a list. -/
def safe_json_load (val : Option JsonV) : JsonV :=
  match val with
  | some (.arr l) => .arr l
  | some (.str s) =>
    match json_loads s with
    | some v => v
    | none => .arr []
  | _ => .arr []

/-! ### The entity model (`src/data/events_node.py`) -/

/-- `MarketNode`: one tradable market contract.  The fields filled by
`safe_json_load` keep the dynamic type `JsonV`, as the Python dataclass does
not enforce its `List[str]` annotations. -/
structure MarketNode where
  id : String
  condition_id : String
  clob_token_ids : JsonV
  question : String
  outcomes : JsonV
  outcome_prices : JsonV
  uma_bond : String
  liquidity : Rat
  volume : Rat
  volume_24hr : Rat
  volume_1wk : Rat
  price_change_24hr : Rat
  end_date : String
  best_bid : Rat := 0
  best_ask : Rat := 0
  deriving Inhabited

/-- `EventNode`: the parent event holding its markets. -/
structure EventNode where
  id : String
  slug : String
  title : String
  description : String
  created_at : String
  volume : Rat
  volume_24hr : Rat
  markets : List MarketNode := []
  deriving Inhabited

/-- The field extraction of step 2 of `EventNode.from_json` on one market
source dict: `str` coercions, the `question`/`title`/placeholder priority
chain, `safe_json_load` for the stringified list fields, `to_float` for the
numeric fields, and the two-key fallback for the price change. -/
def marketOfDict (d : Dict) : MarketNode :=
  { id := pyStr (dget d "id")
    condition_id := pyStr (dget d "conditionId")
    clob_token_ids := safe_json_load (dget d "clobTokenIds")
    question := pyStr (pyOr (dget d "question") (pyOr (dget d "title") (some (.str "Unknown Question"))))
    outcomes := safe_json_load (dget d "outcomes")
    outcome_prices := safe_json_load (dget d "outcomePrices")
    uma_bond := pyStr (dget d "umaBond")
    liquidity := to_float (dget d "liquidity")
    volume := to_float (dget d "volume")
    volume_24hr := to_float (dget d "volume24hr")
    volume_1wk := to_float (dget d "volume1wk")
    price_change_24hr := to_float (pyOr (dget d "oneDayPriceChange") (dget d "priceChange24h"))
    best_bid := to_float (dget d "bestBid")
    best_ask := to_float (dget d "bestAsk")
    end_date := pyStr (dget d "endDate") }

/-- Construction of one `MarketNode` from a market source, as in the loop of
`EventNode.from_json` (step 2).  A non-dict market source raises
`AttributeError` at `m.get("id")`, which `from_json` does not catch. -/
def buildMarket (m : JsonV) : Except String MarketNode :=
  match m with
  | .obj d => .ok (marketOfDict d)
  | _ => .error "AttributeError"

/-- The field extraction of step 3 of `EventNode.from_json` on the event
source dict (note the defaulted `.get` calls for `slug`, `title`,
`description` and `createdAt`, versus the undefaulted `.get("id")`). -/
def eventOfDict (d : Dict) (markets : List MarketNode) : EventNode :=
  { id := pyStr (dget d "id")
    slug := pyStr (some (dgetD d "slug" (.str "")))
    title := pyStr (some (dgetD d "title" (.str "Unknown Event")))
    description := pyStr (some (dgetD d "description" (.str "")))
    created_at := pyStr (some (dgetD d "createdAt" (.str "")))
    volume := to_float (dget d "volume")
    volume_24hr := to_float (dget d "volume24hr")
    markets := markets }

/-- Construction of the parent `EventNode` from the event source (step 3 of
`EventNode.from_json`).  A non-dict event source raises `AttributeError` at
`event_source.get("id")`. -/
def buildEvent (src : JsonV) (markets : List MarketNode) : Except String EventNode :=
  match src with
  | .obj d => .ok (eventOfDict d markets)
  | _ => .error "AttributeError"

/-- Step 1 of `EventNode.from_json`: where the market list lives.  If the
record has a list-valued `markets` field, its elements are the market
sources; otherwise the record itself is the single market source. -/
def marketSources (data : Dict) : List JsonV :=
  match dget data "markets" with
  | some (.arr ms) => ms
  | _ => [.obj data]

/-- Step 1 of `EventNode.from_json`: where the event metadata lives.  With a
list-valued `markets` field the root is the event source; otherwise the
first element of a non-empty list-valued `events` field, with the root as
fallback. -/
def eventSource (data : Dict) : JsonV :=
  match dget data "markets" with
  | some (.arr _) => .obj data
  | _ =>
    match dget data "events" with
    | some (.arr (e :: _)) => e
    | _ => .obj data

/-- The `for m in market_list_source` loop of step 2: build one `MarketNode`
per market source, in order, aborting at the first uncaught exception. -/
def buildMarkets : List JsonV → Except String (List MarketNode)
  | [] => .ok []
  | m :: ms => do
    let node ← buildMarket m
    let rest ← buildMarkets ms
    pure (node :: rest)

/-- `EventNode.from_json`: normalize one raw record.  The market list is
processed first, then the parent event is built, exactly as in the source;
an uncaught `AttributeError` is modelled by `Except.error`. -/
def from_json (data : Dict) : Except String EventNode := do
  let market_nodes ← buildMarkets (marketSources data)
  buildEvent (eventSource data) market_nodes

/-! ### `search_events` enrichment step (`src/backend_functions/discovery.py`)

The per-record detail request (`requests.get` on the slug URL, with its
10-second timeout, `raise_for_status` and `.json()`) is modelled by an oracle
`detail : Nat → Except String JsonV` giving, for each input position, either
the parsed full record or the caught exception's message (transport error,
non-2xx status, or timeout).  The thread pool is modelled by an arbitrary
completion order in which the index-addressed write-backs happen. -/

/-- `fetch_full_event` on `(index, event)`: a falsy slug keeps the summary
(with no recorded error); otherwise the detail fetch either succeeds with
the full record or fails, keeping the summary and recording the error. -/
def fetch_full_event (detail : Nat → Except String JsonV) (ie : Nat × Dict) :
    Nat × JsonV × Option String :=
  let index := ie.1
  let event := ie.2
  let slug := dget event "slug"
  if !truthy slug then (index, .obj event, none)
  else
    match detail index with
    | .ok full_event => (index, full_event, none)
    | .error e => (index, .obj event, some e)

/-- The `enriched_events[index] = result` write-backs, performed in the order
the futures complete. -/
def write_back (results : List (Nat × JsonV)) (slots : List (Option JsonV)) :
    List (Option JsonV) :=
  results.foldl (fun acc p => acc.set p.1 (some p.2)) slots

/-- The enrichment stage of `search_events`: a `None`-initialised slot list of
the input length, written index-addressed as workers complete in the order
`order`. -/
def enrich_step (detail : Nat → Except String JsonV) (events : List Dict)
    (order : List Nat) : List (Option JsonV) :=
  write_back
    (order.map (fun i => ((fetch_full_event detail (i, events.getD i [])).1,
                          (fetch_full_event detail (i, events.getD i [])).2.1)))
    (List.replicate events.length none)

/-- The record the enrichment stage is expected to leave at position `i`. -/
def enrichResult (detail : Nat → Except String JsonV) (events : List Dict) (i : Nat) : JsonV :=
  (fetch_full_event detail (i, events.getD i [])).2.1

/-! ### `get_current_events` pagination loop

The listing request (`requests.get` with the fixed base parameters followed
by `raise_for_status` and `.json()`) is modelled by an oracle
`page : Nat → Nat → Except String (List JsonV)` mapping the request's
`limit` and `offset` parameters to either the returned batch or the caught
`RequestException`'s message. -/

/-- The `while len(all_events) < limit` loop of `get_current_events`: each
round requests `min(remaining, 500)` records at the current offset, extends
the accumulator, stops on an empty or short batch, advances the offset by
the number of records actually returned, and on a request failure returns
what was accumulated so far (the `except` clause wrapping the loop). -/
def gce_loop (limit : Nat) (page : Nat → Nat → Except String (List JsonV))
    (offset : Nat) (acc : List JsonV) : List JsonV :=
  if _h : acc.length < limit then
    let current_limit := min (limit - acc.length) 500
    match page current_limit offset with
    | .error _ => acc
    | .ok batch =>
      if batch.isEmpty then acc
      else if batch.length < current_limit then acc ++ batch
      else gce_loop limit page (offset + batch.length) (acc ++ batch)
  else acc
termination_by limit - acc.length
decreasing_by
  simp only [List.length_append]
  omega

/-- `get_current_events`: run the pagination loop from offset 0 with an empty
accumulator. -/
def get_current_events (limit : Nat)
    (page : Nat → Nat → Except String (List JsonV)) : List JsonV :=
  gce_loop limit page 0 []

/-! ### `is_match` and its `difflib.SequenceMatcher` model

`is_match` calls `SequenceMatcher(None, query, text).ratio()`.  The model
below follows CPython's `difflib`: `b2j` maps each character of `b` to its
ascending positions, with the autojunk heuristic discarding characters that
occur in more than 1% of a `b` of length ≥ 200; `find_longest_match` is the
longest-matching-block dynamic program (ties broken towards the earliest
`i`, then earliest `j`) followed by the four extension loops; the ratio is
`2·M/T` where `M` sums the block sizes found by recursive subdivision. -/

/-- `isbjunk`: membership in the junk set, which is empty because `is_match`
constructs the matcher with `isjunk=None`. -/
def isbjunk (_ : Char) : Bool := false

/-- Ascending positions of a character in `b` (the `b2j` table entry before
the autojunk purge). -/
def bPositions (b : List Char) (c : Char) : List Nat :=
  (b.enum.filter (fun p => p.2 == c)).map (fun p => p.1)

/-- `b2j.get(c, [])` after the autojunk purge: for `len(b) >= 200`, entries
of characters occurring more than `len(b)//100 + 1` times are deleted. -/
def b2jGet (b : List Char) (c : Char) : List Nat :=
  let js := bPositions b c
  if b.length ≥ 200 && js.length > b.length / 100 + 1 then [] else js

/-- `j2len.get(j, 0)` on the dicts of the dynamic program, modelled as
association lists. -/
def alGet (l : List (Nat × Nat)) (j : Nat) : Nat :=
  ((l.find? (fun p => p.1 == j)).map (fun p => p.2)).getD 0

/-- The inner `for j in b2j.get(a[i], [])` loop of `find_longest_match`:
positions below `blo` are skipped, the ascending iteration breaks at `bhi`,
and `newj2len[j] = j2len.get(j-1, 0) + 1` extends the diagonal run (for
`j = 0` Python looks up key `-1`, which is never present).  The best triple
is replaced only on strictly greater length. -/
def flm_inner (j2len : List (Nat × Nat)) (i blo bhi : Nat) :
    List Nat → List (Nat × Nat) → Nat × Nat × Nat → List (Nat × Nat) × (Nat × Nat × Nat)
  | [], newj2len, best => (newj2len, best)
  | j :: js, newj2len, best =>
    if j < blo then flm_inner j2len i blo bhi js newj2len best
    else if bhi ≤ j then (newj2len, best)
    else
      let k := (if j = 0 then 0 else alGet j2len (j - 1)) + 1
      let newj2len' := (j, k) :: newj2len
      let best' := if best.2.2 < k then (i + 1 - k, j + 1 - k, k) else best
      flm_inner j2len i blo bhi js newj2len' best'

/-- The `for i in range(alo, ahi)` dynamic program of `find_longest_match`,
starting from `besti, bestj, bestsize = alo, blo, 0`. -/
def flm_dp (a b : List Char) (alo ahi blo bhi : Nat) : Nat × Nat × Nat :=
  ((List.range' alo (ahi - alo)).foldl
    (fun st i =>
      flm_inner st.1 i blo bhi (b2jGet b (a.getD i (Char.ofNat 0))) [] st.2)
    ([], (alo, blo, 0))).2

/-- One of the two leftward extension `while` loops of `find_longest_match`
(`junkcond` is `not isbjunk(...)` for the first and `isbjunk(...)` for the
third loop); structurally recursive on `besti`, which each step decrements. -/
def ext_left (a b : List Char) (alo blo : Nat) (junkcond : Char → Bool) :
    Nat → Nat → Nat → Nat × Nat × Nat
  | 0, bestj, bestsize => (0, bestj, bestsize)
  | besti + 1, bestj, bestsize =>
    if alo < besti + 1 && blo < bestj &&
        junkcond (b.getD (bestj - 1) (Char.ofNat 0)) &&
        (a.getD besti (Char.ofNat 0) == b.getD (bestj - 1) (Char.ofNat 0)) then
      ext_left a b alo blo junkcond besti (bestj - 1) (bestsize + 1)
    else (besti + 1, bestj, bestsize)

/-- One of the two rightward extension `while` loops of `find_longest_match`.
Each step requires `besti + bestsize < ahi` and increments `bestsize`, so
the fuel `ahi` it is always called with can never run out first. -/
def ext_right (a b : List Char) (ahi bhi : Nat) (junkcond : Char → Bool)
    (besti bestj : Nat) : Nat → Nat → Nat
  | 0, bestsize => bestsize
  | fuel + 1, bestsize =>
    if besti + bestsize < ahi && bestj + bestsize < bhi &&
        junkcond (b.getD (bestj + bestsize) (Char.ofNat 0)) &&
        (a.getD (besti + bestsize) (Char.ofNat 0) == b.getD (bestj + bestsize) (Char.ofNat 0)) then
      ext_right a b ahi bhi junkcond besti bestj fuel (bestsize + 1)
    else bestsize

/-- `SequenceMatcher.find_longest_match` on the window
`a[alo:ahi] × b[blo:bhi]`: the dynamic program followed by the four
extension loops (the junk-extension loops never fire since the junk set is
empty). -/
def find_longest_match (a b : List Char) (alo ahi blo bhi : Nat) : Nat × Nat × Nat :=
  let best := flm_dp a b alo ahi blo bhi
  let best := ext_left a b alo blo (fun c => !isbjunk c) best.1 best.2.1 best.2.2
  let best := (best.1, best.2.1,
    ext_right a b ahi bhi (fun c => !isbjunk c) best.1 best.2.1 ahi best.2.2)
  let best := ext_left a b alo blo isbjunk best.1 best.2.1 best.2.2
  (best.1, best.2.1,
    ext_right a b ahi bhi isbjunk best.1 best.2.1 ahi best.2.2)

/-- The `get_matching_blocks` queue loop, summing the sizes of the matching
blocks (all `ratio` needs).  Every block found consumes at least one element
of disjoint windows of `a` and each window spawns at most two sub-windows,
so the fuel `2*(|a|+|b|)+3` bounds the number of queue iterations. -/
def match_sum_go (a b : List Char) : Nat → List (Nat × Nat × Nat × Nat) → Nat → Nat
  | 0, _, acc => acc
  | _ + 1, [], acc => acc
  | fuel + 1, w :: queue, acc =>
    let alo := w.1
    let ahi := w.2.1
    let blo := w.2.2.1
    let bhi := w.2.2.2
    let m := find_longest_match a b alo ahi blo bhi
    let i := m.1
    let j := m.2.1
    let k := m.2.2
    if k = 0 then match_sum_go a b fuel queue acc
    else
      let q1 := if alo < i && blo < j then [(alo, i, blo, j)] else []
      let q2 := if i + k < ahi && j + k < bhi then [(i + k, ahi, j + k, bhi)] else []
      match_sum_go a b fuel (q1 ++ q2 ++ queue) (acc + k)

/-- Total size of the matching blocks between `a` and `b`. -/
def match_sum (a b : List Char) : Nat :=
  match_sum_go a b (2 * (a.length + b.length) + 3) [(0, a.length, 0, b.length)] 0

/-- `SequenceMatcher(None, a, b).ratio()`: `2.0 * M / T` with `T` the total
length (and `1.0` when both sequences are empty, as in `_calculate_ratio`). -/
def sm_ratio (a b : String) : Rat :=
  let la := a.length
  let lb := b.length
  if la + lb = 0 then 1
  else 2 * (match_sum a.toList b.toList : Rat) / ((la : Rat) + (lb : Rat))

/-- Python's `query in text` substring test. -/
def strContains (needle haystack : String) : Bool :=
  (List.range (haystack.toList.length + 1)).any
    (fun k => needle.toList.isPrefixOf (haystack.toList.drop k))

/-- `is_match` from `discovery.py`: empty query or text never matches; a
case-insensitive literal substring matches immediately; otherwise the
sequence-similarity ratio must exceed the threshold (default 0.4). -/
def is_match (query text : String) (threshold : Rat := 0.4) : Bool :=
  if query == "" || text == "" then false
  else
    let query := query.toLower
    let text := text.toLower
    if strContains query text then true
    else decide (sm_ratio query text > threshold)

/-! ### `datetime.fromisoformat` model and `filter_events`

Instants are modelled as rational seconds since the Unix epoch (an aware
datetime's UTC instant; a naive datetime's nominal seconds).  `now` —
`datetime.now(timezone.utc)` in the source — is injected as a parameter.
The parser models CPython 3.11 `fromisoformat` on the extended ISO-8601
forms `YYYY-MM-DD[*HH[:MM[:SS[.f+]]][offset]]` with offset `Z` or
`±HH[:MM[:SS[.f+]]]`; subtraction of a naive datetime from the aware `now`
raises an uncaught `TypeError` in the source, modelled by `Except.error`. -/

/-- Gregorian leap year. -/
def isLeap (y : Nat) : Bool :=
  y % 4 == 0 && (y % 100 != 0 || y % 400 == 0)

/-- Days in a month. -/
def daysInMonth (y m : Nat) : Nat :=
  if m = 2 then (if isLeap y then 29 else 28)
  else if m = 4 || m = 6 || m = 9 || m = 11 then 30
  else 31

/-- Days from the Unix epoch to the civil date `y-m-d` (Hinnant's
days-from-civil algorithm). -/
def civilDays (y m d : Nat) : Int :=
  let y' : Int := if m ≤ 2 then (y : Int) - 1 else (y : Int)
  let era : Int := y' / 400
  let yoe : Int := y' - era * 400
  let mp : Int := if m > 2 then (m : Int) - 3 else (m : Int) + 9
  let doy : Int := (153 * mp + 2) / 5 + (d : Int) - 1
  let doe : Int := yoe * 365 + yoe / 4 - yoe / 100 + doy
  era * 146097 + doe - 719468

/-- Two decimal digits. -/
def twoDigits (cs : List Char) : Option (Nat × List Char) :=
  match cs with
  | a :: b :: rest => do
    let x ← digitVal? a
    let y ← digitVal? b
    some (10 * x + y, rest)
  | _ => none

/-- Parse `HH[:MM[:SS[(.|,)f+]]]` (hour ≤ 23, minute/second ≤ 59; fractional
digits beyond microseconds are truncated, as CPython does). -/
def parseHMSF (cs : List Char) : Option ((Nat × Nat × Nat × Rat) × List Char) := do
  let (hh, r1) ← twoDigits cs
  if hh > 23 then none else
  match r1 with
  | ':' :: r2 => do
    let (mm, r3) ← twoDigits r2
    if mm > 59 then none else
    match r3 with
    | ':' :: r4 => do
      let (ss, r5) ← twoDigits r4
      if ss > 59 then none else
      match r5 with
      | c :: r6 =>
        if c == '.' || c == ',' then
          let (fd, r7) := takeDigits r6
          if fd.isEmpty then none
          else
            let fd6 := fd.take 6
            some ((hh, mm, ss, (digitsToNat fd6 : Rat) / ((10 : Rat) ^ fd6.length)), r7)
        else some ((hh, mm, ss, 0), r5)
      | [] => some ((hh, mm, ss, 0), r5)
    | _ => some ((hh, mm, 0, 0), r3)
  | _ => some ((hh, 0, 0, 0), r1)

/-- Parse the UTC-offset tail: nothing (naive), `Z`/`z`, or a signed
`HH[:MM[:SS[.f+]]]` giving the offset in seconds (necessarily less than 24
hours in magnitude, as `timezone` requires). -/
def parseTzTail (cs : List Char) : Option (Option Rat) :=
  match cs with
  | [] => some none
  | ['Z'] => some (some 0)
  | ['z'] => some (some 0)
  | c :: rest =>
    if c == '+' || c == '-' then
      match parseHMSF rest with
      | some (hmsf, r) =>
        if !r.isEmpty then none
        else
          let secs : Rat :=
            (hmsf.1 : Rat) * 3600 + (hmsf.2.1 : Rat) * 60 + (hmsf.2.2.1 : Rat) + hmsf.2.2.2
          some (some (if c == '-' then -secs else secs))
      | none => none
    else none

/-- `datetime.fromisoformat` (CPython 3.11 semantics on the extended forms):
returns the instant in seconds since the epoch and whether the result is
timezone-aware; `none` models `ValueError`. -/
def fromisoformat (s : String) : Option (Rat × Bool) :=
  match s.toList with
  | y1 :: y2 :: y3 :: y4 :: c1 :: m1 :: m2 :: c2 :: d1 :: d2 :: rest =>
    if c1 == '-' && c2 == '-' then do
      let v1 ← digitVal? y1
      let v2 ← digitVal? y2
      let v3 ← digitVal? y3
      let v4 ← digitVal? y4
      let y := ((v1 * 10 + v2) * 10 + v3) * 10 + v4
      if y = 0 then none else
      let (mo, _) ← twoDigits [m1, m2]
      if mo < 1 || mo > 12 then none else
      let (d, _) ← twoDigits [d1, d2]
      if d < 1 || d > daysInMonth y mo then none else
      match rest with
      | [] => some (((civilDays y mo d : Int) : Rat) * 86400, false)
      | _sep :: trest => do
        let (hmsf, r) ← parseHMSF trest
        let tz ← parseTzTail r
        let daySecs : Rat :=
          (hmsf.1 : Rat) * 3600 + (hmsf.2.1 : Rat) * 60 + (hmsf.2.2.1 : Rat) + hmsf.2.2.2
        let ts : Rat := ((civilDays y mo d : Int) : Rat) * 86400 + daySecs
        match tz with
        | none => some (ts, false)
        | some off => some (ts - off, true)
    else none
  | _ => none

/-- Left-to-right replacement of every non-overlapping occurrence of `pat`
(non-empty in all uses) in a character list; each step consumes at least one
character, so the fuel `length + 1` it is called with cannot run out. -/
def listReplace (pat rep : List Char) : Nat → List Char → List Char
  | 0, cs => cs
  | _ + 1, [] => []
  | fuel + 1, c :: cs =>
    if !pat.isEmpty && pat.isPrefixOf (c :: cs) then
      rep ++ listReplace pat rep fuel ((c :: cs).drop pat.length)
    else c :: listReplace pat rep fuel cs

/-- Model of Python `s.replace(pat, rep)` for a non-empty `pat`. -/
def pyReplace (s pat rep : String) : String :=
  String.mk (listReplace pat.toList rep.toList (s.toList.length + 1) s.toList)

/-- The expiring-soon scan over an event's markets: unparseable end dates
(`ValueError`) are skipped; a parseable offset-naive end date hits the
uncaught `TypeError` of `end_dt - now`; an aware end date strictly inside
`(now, now + 48h)` stops the scan with a match. -/
def has_expiring (now : Rat) : List MarketNode → Except String Bool
  | [] => .ok false
  | m :: rest =>
    match fromisoformat (pyReplace m.end_date "Z" "+00:00") with
    | none => has_expiring now rest
    | some (ts, aware) =>
      if aware then
        if 0 < ts - now ∧ ts - now < 48 * 3600 then .ok true
        else has_expiring now rest
      else .error "TypeError"

/-- Truthiness of the `search_query` argument (`None` and `""` are falsy). -/
def optStrTruthy : Option String → Bool
  | none => false
  | some s => s != ""

/-- `max([m.liquidity for m in e.markets]) if e.markets else 0`. -/
def max_market_liq (e : EventNode) : Rat :=
  match e.markets with
  | [] => 0
  | m :: ms => (ms.map (fun x => x.liquidity)).foldl max m.liquidity

/-- The body of the `filter_events` loop for one event: the sequence of
`continue` checks in source order (fuzzy search, volume floor, 24h-volume
floor, per-market max liquidity floor, expiring-soon), `Except.error`
propagating the uncaught `TypeError` of the expiring-soon check. -/
def event_passes (min_vol min_liquidity volume_24hr_min : Option Rat)
    (expiring_soon : Option Bool) (search_query : Option String)
    (now : Rat) (e : EventNode) : Except String Bool :=
  if optStrTruthy search_query &&
      !(is_match (search_query.getD "") e.title ||
        e.markets.any (fun m => is_match (search_query.getD "") m.question)) then
    .ok false
  else if (match min_vol with
           | some v => decide (e.volume < v)
           | none => false) then
    .ok false
  else if (match volume_24hr_min with
           | some v => decide (e.volume_24hr < v)
           | none => false) then
    .ok false
  else if (match min_liquidity with
           | some v => decide (max_market_liq e < v)
           | none => false) then
    .ok false
  else if expiring_soon = some true then
    has_expiring now e.markets
  else
    .ok true

/-- `filter_events`: keep, in order, the events passing every supplied
criterion; an exception raised while evaluating an event aborts the whole
call (the source has no handler around the loop). -/
def filter_events (events : List EventNode)
    (min_vol min_liquidity volume_24hr_min : Option Rat)
    (expiring_soon : Option Bool) (search_query : Option String)
    (now : Rat) : Except String (List EventNode) :=
  match events with
  | [] => .ok []
  | e :: rest => do
    let b ← event_passes min_vol min_liquidity volume_24hr_min expiring_soon search_query now e
    let tail ← filter_events rest min_vol min_liquidity volume_24hr_min expiring_soon search_query now
    pure (if b then e :: tail else tail)

/-! ## Helper lemmas -/

/-- Inversion of a successful `Except` bind. -/
theorem exceptBind_ok {α β : Type} {x : Except String α} {f : α → Except String β} {b : β}
    (h : (x >>= f) = .ok b) : ∃ a, x = .ok a ∧ f a = .ok b := by
  cases x with
  | error e => simp [Bind.bind, Except.bind] at h
  | ok a => exact ⟨a, rfl, by simpa [Bind.bind, Except.bind] using h⟩

/-- A successful market-list build has one node per market source. -/
theorem buildMarkets_ok_length :
    ∀ (l : List JsonV) (l' : List MarketNode), buildMarkets l = .ok l' → l'.length = l.length := by
  intro l
  induction l with
  | nil => intro l' h; simp [buildMarkets] at h; simp [← h]
  | cons a t ih =>
    intro l' h
    unfold buildMarkets at h
    obtain ⟨b, hb, h2⟩ := exceptBind_ok h
    obtain ⟨bs, hbs, h3⟩ := exceptBind_ok h2
    simp [pure, Except.pure] at h3
    subst h3
    simp [ih bs hbs]

/-- A successfully built event holds exactly the supplied market nodes. -/
theorem buildEvent_ok_markets {src : JsonV} {mk : List MarketNode} {e : EventNode}
    (h : buildEvent src mk = .ok e) : e.markets = mk := by
  cases src with
  | obj d => simp [buildEvent] at h; subst h; rfl
  | null => simp [buildEvent] at h
  | bool b => simp [buildEvent] at h
  | num q => simp [buildEvent] at h
  | str s => simp [buildEvent] at h
  | arr l => simp [buildEvent] at h

/-- A successful `from_json` run decomposes into a successful market-list
build from the market sources and a successful event build from the event
source. -/
theorem from_json_ok_parts {data : Dict} {e : EventNode} (h : from_json data = .ok e) :
    buildMarkets (marketSources data) = .ok e.markets ∧
    buildEvent (eventSource data) e.markets = .ok e := by
  unfold from_json at h
  obtain ⟨mk, hmk, hb⟩ := exceptBind_ok h
  have := buildEvent_ok_markets hb
  subst this
  exact ⟨hmk, hb⟩

/-! ## Claim C1 -/

/-- C1: for every raw record that normalizes successfully, if it contains a
list-valued `markets` field then `EventNode.from_json` yields an Event whose
event-level fields are read from the root record and whose embedded markets
are built one per element of that list (so their count equals its length);
otherwise it yields exactly one Market built from the root record, with
event metadata taken from the first element of the record's `events` list
when that list is present and non-empty, and from the root record itself
otherwise. -/
theorem C1_from_json_shape_dispatch (data : Dict) (e : EventNode)
    (h : from_json data = .ok e) :
    match dget data "markets" with
    | some (.arr ms) =>
      buildMarkets ms = Except.ok e.markets ∧
      e.markets.length = ms.length ∧
      buildEvent (.obj data) e.markets = Except.ok e
    | _ =>
      buildMarkets [JsonV.obj data] = Except.ok e.markets ∧
      e.markets.length = 1 ∧
      buildEvent
        (match dget data "events" with
         | some (.arr (ev :: _)) => ev
         | _ => .obj data) e.markets = Except.ok e := by
  obtain ⟨hmk, hb⟩ := from_json_ok_parts h
  unfold marketSources at hmk
  unfold eventSource at hb
  cases hms : dget data "markets" with
  | none =>
    simp only [hms] at hmk hb ⊢
    exact ⟨hmk, by simpa using buildMarkets_ok_length _ _ hmk, hb⟩
  | some v =>
    cases v <;> simp only [hms] at hmk hb ⊢ <;>
      exact ⟨hmk, by simpa using buildMarkets_ok_length _ _ hmk, hb⟩

/-- A concrete event-shaped record with a two-element `markets` list. -/
def dataA : Dict :=
  [("markets", .arr [.obj [("question", .str "Q1")], .obj []]), ("title", .str "Ev")]

/-- The normalization of `dataA`. -/
def evA : EventNode := (from_json dataA).toOption.getD default

/-- Witness for C1: on `dataA` the hypotheses hold and the dispatch theorem
produces the shape-A conclusions (two markets, event fields from the root). -/
theorem C1_from_json_shape_dispatch_witness :
    from_json dataA = Except.ok evA ∧
    buildMarkets [JsonV.obj [("question", JsonV.str "Q1")], JsonV.obj []] = Except.ok evA.markets ∧
    evA.markets.length = 2 ∧
    buildEvent (.obj dataA) evA.markets = Except.ok evA := by
  have h0 : from_json dataA = Except.ok evA := rfl
  have h := C1_from_json_shape_dispatch dataA evA h0
  exact ⟨h0, h.1, h.2.1, h.2.2⟩

/-! ## Claim C8 -/

/-- Counterexample to C8 as stated: on the record `{"markets": [1]}` —
a well-formed JSON record — `from_json` raises `AttributeError` (the
integer market source has no `.get`), rather than producing an Event with
defensive defaults. -/
theorem C8_from_json_counterexample :
    from_json [("markets", JsonV.arr [JsonV.num 1])] = Except.error "AttributeError" := rfl

/-- The market sources and the selected event source are all dicts (the
shapes on which `from_json`'s duck typing cannot raise). -/
def sourcesAreObjs (data : Dict) : Bool :=
  (marketSources data).all JsonV.isObj && (eventSource data).isObj

/-- Building markets from dict sources always succeeds. -/
theorem buildMarkets_total :
    ∀ l : List JsonV, (∀ m ∈ l, m.isObj = true) → ∃ ms, buildMarkets l = .ok ms := by
  intro l
  induction l with
  | nil => intro _; exact ⟨[], rfl⟩
  | cons a t ih =>
    intro h
    have ha := h a (List.mem_cons_self a t)
    obtain ⟨ms, hms⟩ := ih (fun m hm => h m (List.mem_cons_of_mem a hm))
    cases a <;> simp [JsonV.isObj] at ha
    case obj d =>
      refine ⟨marketOfDict d :: ms, ?_⟩
      unfold buildMarkets
      rw [hms]
      rfl

/-- C8 (amended): `from_json` produces an Event, never raising, for every
raw record whose market sources and selected event source are dicts — every
malformed or absent field is then resolved by a defensive default; a
non-dict element of a `markets` list (or a non-dict first element of
`events`) instead raises an uncaught `AttributeError`. -/
theorem C8_from_json_amended (data : Dict) (h : sourcesAreObjs data = true) :
    ∃ e, from_json data = Except.ok e := by
  simp only [sourcesAreObjs, Bool.and_eq_true, List.all_eq_true] at h
  obtain ⟨h1, h2⟩ := h
  obtain ⟨ms, hms⟩ := buildMarkets_total _ (fun m hm => h1 m hm)
  unfold from_json
  rw [hms]
  cases hsrc : eventSource data <;> rw [hsrc] at h2 <;> simp [JsonV.isObj] at h2
  case obj d =>
    exact ⟨eventOfDict d ms, rfl⟩

/-- A market-shaped record with no `events` list and almost all fields
absent. -/
def dataB : Dict := [("question", JsonV.str "Will it rain?")]

/-- Witness for C8 (amended): the record `dataB` is well-shaped and
normalizes successfully. -/
theorem C8_from_json_amended_witness :
    sourcesAreObjs dataB = true ∧ ∃ e, from_json dataB = Except.ok e :=
  ⟨rfl, C8_from_json_amended dataB rfl⟩

/-! ## Claim C5 -/

/-- Counterexample to C5 as stated: `safe_json_load` on the string
`"true"` returns the parsed JSON boolean unchanged — the parse result is
used even though it is not a list, where the claim requires the empty
list. -/
theorem C5_safe_json_load_counterexample :
    safe_json_load (some (JsonV.str "true")) = JsonV.bool true ∧
    safe_json_load (some (JsonV.str "true")) ≠ JsonV.arr [] := by
  have h1 : safe_json_load (some (JsonV.str "true")) = JsonV.bool true := rfl
  refine ⟨h1, ?_⟩
  rw [h1]
  intro h
  exact JsonV.noConfusion h

/-- C5 (amended): `safe_json_load` uses a native list as-is; a string is
parsed as JSON and the parse result is used unchanged — whatever value it
is — with any decode failure yielding the empty list; every non-list,
non-string input yields the empty list; no input raises. -/
theorem C5_safe_json_load_amended :
    (∀ l, safe_json_load (some (JsonV.arr l)) = JsonV.arr l) ∧
    (∀ s, safe_json_load (some (JsonV.str s)) = (json_loads s).getD (JsonV.arr [])) ∧
    safe_json_load none = JsonV.arr [] ∧
    safe_json_load (some JsonV.null) = JsonV.arr [] ∧
    (∀ b, safe_json_load (some (JsonV.bool b)) = JsonV.arr []) ∧
    (∀ q, safe_json_load (some (JsonV.num q)) = JsonV.arr []) ∧
    (∀ d, safe_json_load (some (JsonV.obj d)) = JsonV.arr []) := by
  refine ⟨fun l => rfl, fun s => ?_, rfl, rfl, fun b => rfl, fun q => rfl, fun d => rfl⟩
  unfold safe_json_load
  cases h : json_loads s <;> simp [h]

/-! ## Claim C2 -/

/-- The worker result always carries its own input index. -/
theorem fetch_full_event_fst (detail : Nat → Except String JsonV) (i : Nat) (e : Dict) :
    (fetch_full_event detail (i, e)).1 = i := by
  unfold fetch_full_event
  by_cases h : truthy (dget e "slug") <;> simp [h]
  cases hd : detail i <;> simp [hd]

/-- One write-back step. -/
theorem write_back_cons (i : Nat) (v : JsonV) (rest : List (Nat × JsonV))
    (slots : List (Option JsonV)) :
    write_back ((i, v) :: rest) slots = write_back rest (slots.set i (some v)) := rfl

/-- Index-addressed write-back: slot `k` ends up holding `g k` whenever `k`
was written (in whatever order), and stays untouched otherwise. -/
theorem write_back_getElem? (g : Nat → JsonV) :
    ∀ (order : List Nat) (slots : List (Option JsonV)) (k : Nat),
      (write_back (order.map (fun i => (i, g i))) slots)[k]? =
        if k ∈ order then (if k < slots.length then some (some (g k)) else none)
        else slots[k]? := by
  intro order
  induction order with
  | nil => intro slots k; simp [write_back]
  | cons i rest ih =>
    intro slots k
    rw [List.map_cons, write_back_cons, ih]
    by_cases hk : k ∈ rest
    · simp [hk, List.mem_cons, List.length_set]
    · by_cases hik : k = i
      · subst hik
        by_cases hlt : k < slots.length
        · simp [hk, hlt, List.length_set, List.getElem?_set_self, hlt]
        · simp [hk, hlt, List.length_set, List.getElem?_set]
      · simp [hk, hik, Ne.symm hik, List.mem_cons, List.getElem?_set_ne (Ne.symm hik)]

/-- Write-backs do not change the number of slots. -/
theorem write_back_length :
    ∀ (results : List (Nat × JsonV)) (slots : List (Option JsonV)),
      (write_back results slots).length = slots.length := by
  intro results
  induction results with
  | nil => intro slots; rfl
  | cons p rest ih =>
    intro slots
    cases p with
    | mk i v => rw [write_back_cons, ih, List.length_set]

/-- What one worker leaves at its position: the fetched full record when the
slug is truthy and the detail fetch succeeds; the original summary when the
slug is missing/falsy or the fetch fails. -/
theorem enrichResult_spec (detail : Nat → Except String JsonV) (events : List Dict) (k : Nat) :
    enrichResult detail events k =
      match dget (events.getD k []) "slug", detail k with
      | s, .ok full => if truthy s then full else .obj (events.getD k [])
      | _, .error _ => .obj (events.getD k []) := by
  unfold enrichResult fetch_full_event
  generalize events.getD k [] = ev
  by_cases h : truthy (dget ev "slug") <;>
    cases hd : detail k <;> simp [h, hd]

/-- C2: for any completion order (any permutation of the input positions),
the enrichment stage fills position `k` with record `k`'s fetched full
detail record when that fetch succeeds and with the original summary record
when it fails (missing slug, transport error, non-2xx status or timeout) —
independently for every `k` — and the output matches the input
search-result order regardless of completion order. -/
theorem C2_enrichment_order_and_isolation (detail : Nat → Except String JsonV)
    (events : List Dict) (order : List Nat)
    (hperm : order.Perm (List.range events.length)) :
    enrich_step detail events order =
      (List.range events.length).map (fun i => some (enrichResult detail events i)) ∧
    ∀ k, k < events.length →
      (enrich_step detail events order).getD k none =
        some (match dget (events.getD k []) "slug", detail k with
              | s, .ok full => if truthy s then full else .obj (events.getD k [])
              | _, .error _ => .obj (events.getD k [])) := by
  have hmapeq : (order.map (fun i => ((fetch_full_event detail (i, events.getD i [])).1,
                          (fetch_full_event detail (i, events.getD i [])).2.1)))
      = order.map (fun i => (i, enrichResult detail events i)) := by
    apply List.map_congr_left
    intro i _
    rw [fetch_full_event_fst]
    rfl
  have hmain : enrich_step detail events order =
      (List.range events.length).map (fun i => some (enrichResult detail events i)) := by
    unfold enrich_step
    rw [hmapeq]
    apply List.ext_getElem?
    intro k
    rw [write_back_getElem? (enrichResult detail events) order (List.replicate events.length none) k]
    have hmem : (k ∈ order) = (k < events.length) := by
      have := hperm.mem_iff (a := k)
      simp [List.mem_range] at this
      simp [this]
    by_cases hk : k < events.length
    · simp [hmem, hk, List.length_replicate, List.getElem?_map, List.getElem?_range hk]
    · have hnmem : ¬ (k ∈ order) := by rw [hmem]; exact hk
      have h1 : (List.replicate events.length (none : Option JsonV))[k]? = none :=
        List.getElem?_eq_none (by simpa using hk)
      have h2 : (List.range events.length)[k]? = none :=
        List.getElem?_eq_none (by simpa using hk)
      simp [hnmem, h1, h2]
  refine ⟨hmain, ?_⟩
  intro k hk
  rw [hmain]
  rw [List.getD_eq_getElem?_getD]
  rw [List.getElem?_map, List.getElem?_range hk]
  exact congrArg some (enrichResult_spec detail events k)

/-- A detail oracle where record 0's fetch succeeds and record 1's fails. -/
def detW : Nat → Except String JsonV :=
  fun i => if i = 0 then .ok (.str "full0") else .error "boom"

/-- Two summary records with slugs. -/
def evsW : List Dict := [[("slug", .str "a")], [("slug", .str "b")]]

/-- Witness for C2: with completion order `[1, 0]` (reverse of submission),
position 0 gets its full record, position 1 keeps its summary. -/
theorem C2_enrichment_order_and_isolation_witness :
    ([1, 0] : List Nat).Perm (List.range 2) ∧
    enrich_step detW evsW [1, 0] =
      [some (.str "full0"), some (.obj [("slug", .str "b")])] ∧
    (enrich_step detW evsW [1, 0]).getD 1 none = some (.obj [("slug", .str "b")]) := by
  have hp : ([1, 0] : List Nat).Perm (List.range 2) := by decide
  have h := C2_enrichment_order_and_isolation detW evsW [1, 0] hp
  refine ⟨hp, ?_, ?_⟩
  · rw [h.1]; rfl
  · exact h.2 1 (by decide)

/-! ## Claims C3 and C9 (pagination) -/

/-- With every page honouring its requested size, the loop never exceeds the
cap. -/
theorem gce_loop_length_le (limit : Nat) (page : Nat → Nat → Except String (List JsonV))
    (hP : ∀ l o b, page l o = .ok b → b.length ≤ l) :
    ∀ (offset : Nat) (acc : List JsonV), acc.length ≤ limit →
      (gce_loop limit page offset acc).length ≤ limit := by
  intro offset acc
  generalize hn : limit - acc.length = n
  induction n using Nat.strong_induction_on generalizing offset acc with
  | _ n ih =>
    intro hle
    rw [gce_loop]
    by_cases h : acc.length < limit
    · simp only [h, dif_pos]
      cases hpg : page (min (limit - acc.length) 500) offset with
      | error e => exact hle
      | ok batch =>
        have hM1 : min (limit - acc.length) 500 ≤ limit - acc.length := Nat.min_le_left _ _
        by_cases hemp : batch.isEmpty
        · simp [hemp, hle]
        · by_cases hshort : batch.length < min (limit - acc.length) 500
          · simp [hemp, hshort]
            omega
          · have hb : batch.length ≤ min (limit - acc.length) 500 := hP _ _ _ hpg
            have hble : (acc ++ batch).length ≤ limit := by
              simp [List.length_append]
              omega
            have hne : 1 ≤ batch.length := by
              cases batch with
              | nil => simp at hemp
              | cons x xs => simp
            have hrec := ih (limit - (acc ++ batch).length)
              (by simp [List.length_append]; omega)
              (offset + batch.length) (acc ++ batch) rfl hble
            simpa [hemp, hshort] using hrec
    · simp only [h, dif_neg, not_false_eq_true]
      exact hle

/-- A page of zero records stops the loop at once. -/
theorem gce_loop_stop_empty (limit : Nat) (page : Nat → Nat → Except String (List JsonV))
    (offset : Nat) (acc : List JsonV)
    (h : acc.length < limit)
    (hpg : page (min (limit - acc.length) 500) offset = .ok []) :
    gce_loop limit page offset acc = acc := by
  rw [gce_loop]
  simp only [h, dif_pos]
  rw [hpg]
  simp

/-- A page shorter than requested is appended and stops the loop, even below
the cap. -/
theorem gce_loop_stop_short (limit : Nat) (page : Nat → Nat → Except String (List JsonV))
    (offset : Nat) (acc batch : List JsonV)
    (h : acc.length < limit)
    (hpg : page (min (limit - acc.length) 500) offset = .ok batch)
    (hne : batch ≠ [])
    (hshort : batch.length < min (limit - acc.length) 500) :
    gce_loop limit page offset acc = acc ++ batch := by
  rw [gce_loop]
  simp only [h, dif_pos]
  rw [hpg]
  have hemp : batch.isEmpty = false := by
    cases batch with
    | nil => simp at hne
    | cons x xs => rfl
  simp [hemp, hshort]

/-- A full page is appended and the loop continues with the offset advanced
by the number of records actually returned. -/
theorem gce_loop_advance (limit : Nat) (page : Nat → Nat → Except String (List JsonV))
    (offset : Nat) (acc batch : List JsonV)
    (h : acc.length < limit)
    (hpg : page (min (limit - acc.length) 500) offset = .ok batch)
    (hne : batch ≠ [])
    (hlong : ¬ batch.length < min (limit - acc.length) 500) :
    gce_loop limit page offset acc = gce_loop limit page (offset + batch.length) (acc ++ batch) := by
  rw [gce_loop]
  simp only [h, dif_pos]
  rw [hpg]
  have hemp : batch.isEmpty = false := by
    cases batch with
    | nil => simp at hne
    | cons x xs => rfl
  simp [hemp, hlong]

/-- Counterexample to C3 as stated: against a page oracle that returns two
records where one was requested, `get_current_events` with cap 1 returns
two records — the "at most cap" part of the claim fails for arbitrary page
responses. -/
def pgBad : Nat → Nat → Except String (List JsonV) :=
  fun _ o => if o = 0 then .ok [.str "a", .str "b"] else .ok []

/-- C3 counterexample theorem: the output exceeds the cap. -/
theorem C3_pagination_counterexample :
    get_current_events 1 pgBad = [.str "a", .str "b"] ∧
    ¬ (get_current_events 1 pgBad).length ≤ 1 := by
  have h1 : get_current_events 1 pgBad = [.str "a", .str "b"] := by
    unfold get_current_events
    rw [gce_loop]
    norm_num
    rw [show pgBad 1 0 = Except.ok [JsonV.str "a", JsonV.str "b"] from rfl]
    norm_num
    rw [gce_loop]
    norm_num
  exact ⟨h1, by rw [h1]; decide⟩

/-- C3 (amended): provided every page returns at most the requested number
of records, `get_current_events` returns at most `limit` records; each page
is requested with size `min(remaining, 500)`; the loop stops at the first
page returning zero records, stops (keeping the batch) at the first page
returning fewer records than requested even when the running total is below
the cap, and otherwise continues with the offset advanced by the number of
records actually returned. -/
theorem C3_pagination_amended (limit : Nat) (page : Nat → Nat → Except String (List JsonV))
    (hP : ∀ l o b, page l o = .ok b → b.length ≤ l) :
    (get_current_events limit page).length ≤ limit ∧
    (∀ offset acc, acc.length < limit →
      page (min (limit - acc.length) 500) offset = .ok [] →
      gce_loop limit page offset acc = acc) ∧
    (∀ offset acc batch, acc.length < limit →
      page (min (limit - acc.length) 500) offset = .ok batch → batch ≠ [] →
      batch.length < min (limit - acc.length) 500 →
      gce_loop limit page offset acc = acc ++ batch) ∧
    (∀ offset acc batch, acc.length < limit →
      page (min (limit - acc.length) 500) offset = .ok batch → batch ≠ [] →
      ¬ batch.length < min (limit - acc.length) 500 →
      gce_loop limit page offset acc =
        gce_loop limit page (offset + batch.length) (acc ++ batch)) := by
  refine ⟨gce_loop_length_le limit page hP 0 [] (by simp), ?_, ?_, ?_⟩
  · intro offset acc h hpg
    exact gce_loop_stop_empty limit page offset acc h hpg
  · intro offset acc batch h hpg hne hshort
    exact gce_loop_stop_short limit page offset acc batch h hpg hne hshort
  · intro offset acc batch h hpg hne hlong
    exact gce_loop_advance limit page offset acc batch h hpg hne hlong

/-- An endpoint that is already exhausted. -/
def pgW : Nat → Nat → Except String (List JsonV) := fun _ _ => .ok []

/-- Witness for C3 (amended): a size-honouring oracle satisfies the
hypothesis, the cap holds, and the empty first page stops the loop. -/
theorem C3_pagination_amended_witness :
    (get_current_events 5 pgW).length ≤ 5 ∧ gce_loop 5 pgW 0 [] = [] := by
  have hP : ∀ l o b, pgW l o = .ok b → b.length ≤ l := by
    intro l o b h
    cases h
    simp
  have h := C3_pagination_amended 5 pgW hP
  exact ⟨h.1, h.2.1 0 [] (by decide) rfl⟩

/-- C9: if the page request fails at any reachable loop state, the loop
stops and returns exactly the records accumulated from the earlier
successful pages, rather than raising. -/
theorem C9_pagination_partial_on_error (limit : Nat)
    (page : Nat → Nat → Except String (List JsonV))
    (offset : Nat) (acc : List JsonV) (msg : String)
    (hlt : acc.length < limit)
    (herr : page (min (limit - acc.length) 500) offset = .error msg) :
    gce_loop limit page offset acc = acc := by
  rw [gce_loop]
  simp only [hlt, dif_pos]
  rw [herr]

/-- An endpoint whose every request fails. -/
def pgE : Nat → Nat → Except String (List JsonV) := fun _ _ => .error "conn"

/-- Witness for C9: a first-page transport failure yields the empty list
(the records accumulated so far). -/
theorem C9_pagination_partial_on_error_witness :
    get_current_events 3 pgE = ([] : List JsonV) := by
  unfold get_current_events
  exact C9_pagination_partial_on_error 3 pgE 0 [] "conn" (by decide) rfl

/-! ## Claims C4, C6 and C10 (filter engine)

The five `continue` checks of `filter_events` as individual pass/fail
predicates (each is the negation of the corresponding rejection condition
in the source), used to state that filtering is their conjunction. -/

/-- The event survives the fuzzy-search check: no truthy query, or the query
matches the title or some owned market's question. -/
def pass_search (search_query : Option String) (e : EventNode) : Bool :=
  !(optStrTruthy search_query &&
    !(is_match (search_query.getD "") e.title ||
      e.markets.any (fun m => is_match (search_query.getD "") m.question)))

/-- The event survives the volume floor. -/
def pass_min_vol (min_vol : Option Rat) (e : EventNode) : Bool :=
  !(match min_vol with
    | some v => decide (e.volume < v)
    | none => false)

/-- The event survives the 24h-volume floor. -/
def pass_vol24 (volume_24hr_min : Option Rat) (e : EventNode) : Bool :=
  !(match volume_24hr_min with
    | some v => decide (e.volume_24hr < v)
    | none => false)

/-- The event survives the per-market max-liquidity floor. -/
def pass_liquidity (min_liquidity : Option Rat) (e : EventNode) : Bool :=
  !(match min_liquidity with
    | some v => decide (max_market_liq e < v)
    | none => false)

/-- The expiring-soon criterion (skipped unless the flag is truthy); may
raise like `has_expiring`. -/
def pass_expiring (expiring_soon : Option Bool) (now : Rat) (e : EventNode) : Except String Bool :=
  if expiring_soon = some true then has_expiring now e.markets else .ok true

/-- Did an exception-free criterion evaluation succeed with a pass? -/
def exceptIsTrue : Except String Bool → Bool
  | .ok true => true
  | _ => false

/-- Conjunction of all five supplied criteria. -/
def passes_all (min_vol min_liquidity volume_24hr_min : Option Rat)
    (expiring_soon : Option Bool) (search_query : Option String)
    (now : Rat) (e : EventNode) : Bool :=
  pass_search search_query e && pass_min_vol min_vol e && pass_vol24 volume_24hr_min e &&
    pass_liquidity min_liquidity e && exceptIsTrue (pass_expiring expiring_soon now e)

/-- When the per-event check chain returns without raising, its verdict is
exactly the conjunction of the five criteria. -/
theorem event_passes_ok (mv ml v24 : Option Rat) (ex : Option Bool) (sq : Option String)
    (now : Rat) (e : EventNode) (b : Bool)
    (h : event_passes mv ml v24 ex sq now e = .ok b) :
    b = passes_all mv ml v24 ex sq now e := by
  unfold event_passes at h
  unfold passes_all pass_search pass_min_vol pass_vol24 pass_liquidity pass_expiring
  split at h
  next h1 =>
    cases h
    rw [h1]
    rfl
  next h1 =>
    rw [Bool.not_eq_true] at h1
    rw [h1]
    split at h
    next h2 =>
      cases h
      rw [h2]
      rfl
    next h2 =>
      rw [Bool.not_eq_true] at h2
      rw [h2]
      split at h
      next h3 =>
        cases h
        rw [h3]
        rfl
      next h3 =>
        rw [Bool.not_eq_true] at h3
        rw [h3]
        split at h
        next h4 =>
          cases h
          rw [h4]
          rfl
        next h4 =>
          rw [Bool.not_eq_true] at h4
          rw [h4]
          split at h
          next h5 =>
            subst h5
            rw [if_pos rfl, h]
            cases b <;> rfl
          next h5 =>
            cases h
            rw [if_neg h5]
            rfl

/-- C4 (amended): whenever `filter_events` returns normally, the returned
list is a subsequence of the input in the same relative order, equal to the
input filtered by the conjunction of the supplied criteria — an event
failing any one supplied criterion is excluded regardless of the others
passing.  (The call can instead raise an uncaught `TypeError` through the
expiring-soon check, see the counterexample and C6.) -/
theorem C4_filter_conjunction (events : List EventNode) (mv ml v24 : Option Rat)
    (ex : Option Bool) (sq : Option String) (now : Rat) (l : List EventNode)
    (h : filter_events events mv ml v24 ex sq now = .ok l) :
    l.Sublist events ∧
    l = events.filter (passes_all mv ml v24 ex sq now) ∧
    (∀ x, x ∈ l ↔ x ∈ events ∧ passes_all mv ml v24 ex sq now x = true) := by
  induction events generalizing l with
  | nil =>
    unfold filter_events at h
    cases h
    refine ⟨List.Sublist.refl [], rfl, ?_⟩
    intro x
    simp
  | cons e rest ih =>
    unfold filter_events at h
    obtain ⟨b, hb, h2⟩ := exceptBind_ok h
    obtain ⟨tail, htail, h3⟩ := exceptBind_ok h2
    simp only [pure, Except.pure, Except.ok.injEq] at h3
    obtain ⟨hsub, hfil, hmem⟩ := ih tail htail
    have hpa := event_passes_ok mv ml v24 ex sq now e b hb
    subst hpa
    constructor
    · rw [← h3]
      by_cases hp : passes_all mv ml v24 ex sq now e
      · simpa [hp] using hsub.cons₂ e
      · simp only [Bool.not_eq_true] at hp
        simpa [hp] using hsub.cons e
    constructor
    · rw [← h3, List.filter_cons]
      by_cases hp : passes_all mv ml v24 ex sq now e
      · simp [hp, hfil]
      · simp only [Bool.not_eq_true] at hp
        simp [hp, hfil]
    · intro x
      rw [← h3]
      by_cases hp : passes_all mv ml v24 ex sq now e
      · simp only [hp, if_true, List.mem_cons]
        constructor
        · intro hx
          cases hx with
          | inl hx => subst hx; exact ⟨Or.inl rfl, hp⟩
          | inr hx =>
            have := (hmem x).mp hx
            exact ⟨Or.inr this.1, this.2⟩
        · intro hx
          cases hx.1 with
          | inl hxe => exact Or.inl hxe
          | inr hxr => exact Or.inr ((hmem x).mpr ⟨hxr, hx.2⟩)
      · simp only [Bool.not_eq_true] at hp
        simp only [hp, if_false, List.mem_cons]
        constructor
        · intro hx
          have := (hmem x).mp hx
          exact ⟨Or.inr this.1, this.2⟩
        · intro hx
          cases hx.1 with
          | inl hxe =>
            subst hxe
            rw [hx.2] at hp
            cases hp
          | inr hxr => exact (hmem x).mpr ⟨hxr, hx.2⟩

/-- A market with every field defaulted except its end date. -/
def mkMarket (endDate : String) : MarketNode :=
  { id := "m", condition_id := "c", clob_token_ids := .arr [], question := "q?",
    outcomes := .arr [], outcome_prices := .arr [], uma_bond := "b", liquidity := 0,
    volume := 0, volume_24hr := 0, volume_1wk := 0, price_change_24hr := 0,
    end_date := endDate }

/-- An event whose only market has a parseable but offset-naive end date. -/
def evNaive : EventNode :=
  { id := "e1", slug := "s", title := "Title", description := "", created_at := "",
    volume := 100, volume_24hr := 0, markets := [mkMarket "2030-01-01T00:00:00"] }

/-- Counterexample to C4 as stated: with the expiring-soon criterion
supplied, `filter_events` raises an uncaught `TypeError` (offset-naive
end date subtracted from the aware `now`) instead of returning a
subsequence of the input. -/
theorem C4_filter_conjunction_counterexample :
    filter_events [evNaive] none none none (some true) none 0 = Except.error "TypeError" := rfl

/-- An event whose volume 100 fails a 500 volume floor. -/
def evSmall : EventNode :=
  { id := "e2", slug := "s2", title := "Small", description := "", created_at := "",
    volume := 100, volume_24hr := 0, markets := [] }

/-- Witness for C4 (amended): volume 100 against `min_vol = 500` excludes
the event, and the output is the filtered subsequence. -/
theorem C4_filter_conjunction_witness :
    filter_events [evSmall] (some 500) none none none none 0 = Except.ok [] ∧
    ([] : List EventNode).Sublist [evSmall] ∧
    ([] : List EventNode) = [evSmall].filter (passes_all (some 500) none none none none 0) := by
  have h0 : filter_events [evSmall] (some 500) none none none none 0 = Except.ok [] := rfl
  have h := C4_filter_conjunction [evSmall] (some 500) none none none none 0 [] h0
  exact ⟨h0, h.1, h.2.1⟩

/-- A market whose (aware) end date parses to instant `ts` contributes a
match exactly when `ts` lies strictly inside `(now, now + 48h)`; otherwise
the scan moves on — the strict open window of the expiring-soon check. -/
theorem has_expiring_aware_window (now : Rat) (m : MarketNode) (rest : List MarketNode)
    (ts : Rat)
    (hp : fromisoformat (pyReplace m.end_date "Z" "+00:00") = some (ts, true)) :
    has_expiring now (m :: rest) =
      if 0 < ts - now ∧ ts - now < 48 * 3600 then .ok true else has_expiring now rest := by
  conv_lhs => rw [has_expiring, hp]
  rfl

/-- C6: the code contradicts the claim (and its own `"We interpret it
safely"` comment): a parseable but offset-naive end-date string is not
skipped — `end_dt - now` raises a `TypeError` that the
`except (ValueError, AttributeError)` clause does not catch, so the whole
evaluation fails instead of the market being skipped. -/
theorem C6_expiring_naive_typeerror :
    has_expiring 0 [mkMarket "2031-06-15 12:00"] = Except.error "TypeError" ∧
    filter_events [{ evNaive with markets := [mkMarket "2031-06-15 12:00"] }]
        none none none (some true) none 100 = Except.error "TypeError" := ⟨rfl, rfl⟩

/-- With every criterion left at `None`, each event passes the check chain. -/
theorem event_passes_default (now : Rat) (e : EventNode) :
    event_passes none none none none none now e = .ok true := rfl

/-- An empty search query is falsy, so the search criterion is skipped
exactly as when it is unset. -/
theorem event_passes_empty_query (mv ml v24 : Option Rat) (ex : Option Bool) (now : Rat)
    (e : EventNode) :
    event_passes mv ml v24 ex (some "") now e = event_passes mv ml v24 ex none now e := rfl

/-- `expiring_soon=False` is falsy, so the expiring criterion is skipped
exactly as when it is unset. -/
theorem event_passes_false_expiring (mv ml v24 : Option Rat) (sq : Option String) (now : Rat)
    (e : EventNode) :
    event_passes mv ml v24 (some false) sq now e = event_passes mv ml v24 none sq now e := by
  unfold event_passes
  split
  · rfl
  · split
    · rfl
    · split
      · rfl
      · split
        · rfl
        · simp

/-- C10: with every criterion at its default `filter_events` is the
identity; supplying the empty string as `search_query`, or `False` as
`expiring_soon`, is equivalent to leaving that criterion unset — the
criterion is skipped, not applied. -/
theorem C10_filter_default_identity (events : List EventNode) (now : Rat) :
    filter_events events none none none none none now = .ok events ∧
    (∀ mv ml v24 ex, filter_events events mv ml v24 ex (some "") now =
        filter_events events mv ml v24 ex none now) ∧
    (∀ mv ml v24 sq, filter_events events mv ml v24 (some false) sq now =
        filter_events events mv ml v24 none sq now) := by
  refine ⟨?_, ?_, ?_⟩
  · induction events with
    | nil => rfl
    | cons e rest ih =>
      unfold filter_events
      rw [event_passes_default, ih]
      rfl
  · intro mv ml v24 ex
    induction events with
    | nil => rfl
    | cons e rest ih =>
      unfold filter_events
      rw [event_passes_empty_query, ih]
  · intro mv ml v24 sq
    induction events with
    | nil => rfl
    | cons e rest ih =>
      unfold filter_events
      rw [event_passes_false_expiring, ih]

/-! ## Claim C7 -/

/-- C7: `is_match` is false when the query or the text is empty; otherwise
it is true when the lowercased query is a literal substring of the
lowercased text, and when it is not a substring it is true exactly when the
`SequenceMatcher` similarity ratio of the two lowercased strings exceeds
the threshold 0.4. -/
theorem C7_is_match_decomposition (query text : String) :
    is_match query text = true ↔
      query ≠ "" ∧ text ≠ "" ∧
        (strContains query.toLower text.toLower = true ∨
         (strContains query.toLower text.toLower = false ∧
          sm_ratio query.toLower text.toLower > (0.4 : Rat))) := by
  unfold is_match
  by_cases hq : query = ""
  · simp [hq]
  · by_cases ht : text = ""
    · simp [hq, ht]
    · have h1 : (query == "") = false := by simp [hq]
      have h2 : (text == "") = false := by simp [ht]
      simp only [h1, h2, Bool.or_self, Bool.false_or, if_false, Bool.false_eq_true]
      by_cases hc : strContains query.toLower text.toLower
      · simp [hc, hq, ht]
      · simp [hc, hq, ht]

end PolyOps
